import Mathlib

/-!
Verification of the Sovereign Doc core library (`sovereign_doc_core.py`).

Text is modelled as `List Char` (one `Char` per Unicode scalar value, as in
a Python `str`).  The Python string primitives used by the core
(`str.strip`, `str.splitlines`, `str.split`, `str.startswith`, ...) are
embedded below; whitespace and line-break classification is restricted to
the ASCII characters the core's behaviour depends on (Python additionally
treats a few rare control and Unicode space characters similarly; no
property considered here depends on those).
-/

/-- Python whitespace test (`str.strip` / `str.split` default), ASCII subset. -/
def pyIsSpace (c : Char) : Bool :=
  c = ' ' || c = '\t' || c = '\n' || c = '\r' || c = '\x0b' || c = '\x0c'

/-- Python line-break test (`str.splitlines`), ASCII subset. -/
def pyIsLineBreak (c : Char) : Bool :=
  c = '\n' || c = '\r' || c = '\x0b' || c = '\x0c'

/-- Python `str.lstrip()` (strip leading whitespace). -/
def pyLstrip (l : List Char) : List Char :=
  l.dropWhile pyIsSpace

/-- Python `str.rstrip()` (strip trailing whitespace). -/
def pyRstrip (l : List Char) : List Char :=
  (l.reverse.dropWhile pyIsSpace).reverse

/-- Python `str.strip()` (strip both ends). -/
def pyStrip (l : List Char) : List Char :=
  pyRstrip (pyLstrip l)

/-- Python `str.lower()` (ASCII case folding, as `Char.toLower`). -/
def pyLower (l : List Char) : List Char :=
  l.map Char.toLower

/-- Python `str.startswith(pre)`. -/
def pyStartsWith (pre l : List Char) : Bool :=
  List.isPrefixOf pre l

/-- Worker for `pySplitlines`: `acc` is the current line, reversed.
`'\r'` directly followed by `'\n'` counts as a single break. -/
def pySplitlinesAux : List Char → List Char → List (List Char)
  | [], acc => if acc.isEmpty then [] else [acc.reverse]
  | '\r' :: '\n' :: rest, acc => acc.reverse :: pySplitlinesAux rest []
  | c :: rest, acc =>
    if pyIsLineBreak c then acc.reverse :: pySplitlinesAux rest []
    else pySplitlinesAux rest (c :: acc)

/-- Python `str.splitlines()`. -/
def pySplitlines (l : List Char) : List (List Char) :=
  pySplitlinesAux l []

/-- Worker for `pySplitWs`: `acc` is the current word, reversed. -/
def pySplitWsAux : List Char → List Char → List (List Char)
  | [], acc => if acc.isEmpty then [] else [acc.reverse]
  | c :: rest, acc =>
    if pyIsSpace c then
      if acc.isEmpty then pySplitWsAux rest []
      else acc.reverse :: pySplitWsAux rest []
    else pySplitWsAux rest (c :: acc)

/-- Python `str.split()` (split on whitespace runs, no empty parts). -/
def pySplitWs (l : List Char) : List (List Char) :=
  pySplitWsAux l []

/-- Python `str.split(maxsplit=1)`: at most one split on the first
whitespace run; leading whitespace skipped, the remainder kept raw. -/
def pySplitMax1 (l : List Char) : List (List Char) :=
  let t := pyLstrip l
  if t.isEmpty then []
  else
    let w := t.takeWhile (fun c => !pyIsSpace c)
    let rest := pyLstrip (t.dropWhile (fun c => !pyIsSpace c))
    if rest.isEmpty then [w] else [w, rest]

/-- Python `str.split("\n\n")`: split on each non-overlapping occurrence of
a blank-line separator, scanning left to right. -/
def pySplitNlNl : List Char → List Char → List (List Char)
  | '\n' :: '\n' :: rest, acc => acc.reverse :: pySplitNlNl rest []
  | c :: rest, acc => pySplitNlNl rest (c :: acc)
  | [], acc => [acc.reverse]

/-- Python `converted.count("\n\n")`: non-overlapping occurrence count. -/
def countNlNl : List Char → Nat
  | '\n' :: '\n' :: rest => countNlNl rest + 1
  | _ :: rest => countNlNl rest
  | [] => 0

/-- Python `"\n".join(lines)`. -/
def joinNl : List (List Char) → List Char
  | [] => []
  | [l] => l
  | l :: ls => l ++ '\n' :: joinNl ls

/-- Python `s.rstrip(".")`: drop trailing `'.'` characters. -/
def rstripDot (l : List Char) : List Char :=
  (l.reverse.dropWhile (fun c => c = '.')).reverse

/-- Python `s.isdigit()` (ASCII digits; nonempty). -/
def pyIsDigitStr (l : List Char) : Bool :=
  !l.isEmpty && l.all Char.isDigit

/-- Heading/bullet classification of one plain-text line
(`txt_to_markdown` loop body, `sovereign_doc_core.py` lines 88-103). -/
def txtMdLine (line : List Char) : List Char :=
  let stripped := pyStrip line
  if stripped.isEmpty then []
  else
    let words := pySplitWs stripped
    let upperish := words.countP (fun w => (w.headD ' ').isUpper)
    if 1 ≤ words.length && words.length ≤ 8 && decide (max 1 (words.length / 2) ≤ upperish) then
      "# ".toList ++ stripped
    else if stripped.headD ' ' = '•' || stripped.headD ' ' = '-' || stripped.headD ' ' = '*' then
      "- ".toList ++ pyStrip (stripped.dropWhile (fun c => c = '•' || c = '-' || c = '*'))
    else stripped

/-- `txt_to_markdown` (`sovereign_doc_core.py` lines 85-104). -/
def txt_to_markdown (text : List Char) : List Char :=
  pyRstrip (joinNl ((pySplitlines text).map txtMdLine)) ++ ['\n']

/-- `_html_escape` (lines 107-108): the three sequential `replace` calls
act independently per character, so a single pass is equivalent. -/
def _html_escape : List Char → List Char
  | [] => []
  | c :: r =>
    if c = '&' then "&amp;".toList ++ _html_escape r
    else if c = '<' then "&lt;".toList ++ _html_escape r
    else if c = '>' then "&gt;".toList ++ _html_escape r
    else c :: _html_escape r

/-- `text_to_html` (lines 111-117). -/
def text_to_html (text : List Char) : List Char :=
  let paragraphs := ((pySplitNlNl text []).map pyStrip).filter (fun p => !p.isEmpty)
  let parts := ["<!DOCTYPE html>".toList, "<html>".toList, "<body>".toList]
    ++ paragraphs.map (fun p => "<p>".toList ++ _html_escape p ++ "</p>".toList)
    ++ ["</body>".toList, "</html>".toList]
  joinNl parts ++ ['\n']

/-- `close_list` inside `markdown_to_html` (lines 125-129). -/
def close_list (html : List (List Char)) (in_list : Bool) : List (List Char) :=
  if in_list then html ++ ["</ul>".toList] else html

/-- One iteration of the `markdown_to_html` loop, acting on the already
stripped line (lines 132-152).  State: emitted lines and the `in_list` flag. -/
def mdHtmlEmit (st : List (List Char) × Bool) (stripped : List Char) : List (List Char) × Bool :=
  if stripped.isEmpty then (close_list st.1 st.2, false)
  else if pyStartsWith ("### ".toList) stripped then
    (close_list st.1 st.2 ++ ["<h3>".toList ++ _html_escape (pyStrip (stripped.drop 4)) ++ "</h3>".toList], false)
  else if pyStartsWith ("## ".toList) stripped then
    (close_list st.1 st.2 ++ ["<h2>".toList ++ _html_escape (pyStrip (stripped.drop 3)) ++ "</h2>".toList], false)
  else if pyStartsWith ("# ".toList) stripped then
    (close_list st.1 st.2 ++ ["<h1>".toList ++ _html_escape (pyStrip (stripped.drop 2)) ++ "</h1>".toList], false)
  else if pyStartsWith ("- ".toList) stripped || pyStartsWith ("* ".toList) stripped
      || pyStartsWith ("+ ".toList) stripped then
    ((if st.2 then st.1 else st.1 ++ ["<ul>".toList])
      ++ ["<li>".toList ++ _html_escape (pyStrip (stripped.drop 2)) ++ "</li>".toList], true)
  else
    (close_list st.1 st.2 ++ ["<p>".toList ++ _html_escape stripped ++ "</p>".toList], false)

/-- One iteration of the `markdown_to_html` loop on a raw line
(`stripped = line.strip()`, line 132). -/
def mdHtmlStep (st : List (List Char) × Bool) (line : List Char) : List (List Char) × Bool :=
  mdHtmlEmit st (pyStrip line)

/-- The `html_lines`/`in_list` state after the `markdown_to_html` loop. -/
def mdHtmlFold (md : List Char) : List (List Char) × Bool :=
  (pySplitlines md).foldl mdHtmlStep ([], false)

/-- The emitted body lines of `markdown_to_html`, after the final
`close_list()` (line 153). -/
def mdHtmlBody (md : List Char) : List (List Char) :=
  close_list (mdHtmlFold md).1 (mdHtmlFold md).2

/-- `markdown_to_html` (lines 120-154). -/
def markdown_to_html (md : List Char) : List Char :=
  "<!DOCTYPE html>\n<html>\n<body>\n".toList ++ joinNl (mdHtmlBody md)
    ++ "\n</body>\n</html>\n".toList

/-- The ordered-list test and split of `markdown_to_plain_text`
(lines 206-208): `parts = stripped.split(maxsplit=1)` kept when
`parts` is nonempty, `parts[0].rstrip(".").isdigit()` and `len(parts) == 2`. -/
def mdOrderedSplit (stripped : List Char) : Option (List Char) :=
  match pySplitMax1 stripped with
  | [a, b] => if pyIsDigitStr (rstripDot a) then some b else none
  | _ => none

/-- One iteration of the `markdown_to_plain_text` loop (lines 199-209). -/
def mdPlainLine (line : List Char) : List Char :=
  let stripped := pyLstrip line
  if pyStartsWith ("#".toList) stripped then
    pyStrip (stripped.dropWhile (fun c => c = '#'))
  else if pyStartsWith ("- ".toList) stripped || pyStartsWith ("* ".toList) stripped
      || pyStartsWith ("+ ".toList) stripped then
    pyStrip (stripped.drop 2)
  else
    match mdOrderedSplit stripped with
    | some rest => pyStrip rest
    | none => stripped

/-- `markdown_to_plain_text` (lines 196-210). -/
def markdown_to_plain_text (md : List Char) : List Char :=
  pyStrip (joinNl ((pySplitlines md).map mdPlainLine)) ++ ['\n']

/-- `_compute_omega_score` (lines 213-225).  Python float arithmetic is
modelled exactly in `ℚ` (every constant in the formula is decimal); the
destination format token is a Lean `String`. -/
def _compute_omega_score (converted : List Char) (dst_fmt : String) : ℚ :=
  let chars_out : ℚ := (converted.length : ℚ)
  let length_score : ℚ := min (chars_out / 10000) 1
  let structure_score : ℚ :=
    if dst_fmt = "md" then
      let lines := pySplitlines converted
      let headings := lines.countP (fun ln => pyStartsWith ("#".toList) (pyLstrip ln))
      let lists := lines.countP (fun ln =>
        pyStartsWith ("- ".toList) (pyLstrip ln) || pyStartsWith ("* ".toList) (pyLstrip ln)
          || pyStartsWith ("1. ".toList) (pyLstrip ln))
      min (((headings + lists : ℕ) : ℚ) / 50) 1
    else if dst_fmt = "html" ∨ dst_fmt = "docx" then
      let paras : ℚ := ((countNlNl converted + 1 : ℕ) : ℚ)
      min (paras / 50) 1
    else 0
  max 0 (min ((2 / 5) * length_score + (3 / 5) * structure_score) 1)

/-- A WordML XML element as assembled by `_create_basic_docx_xml`
(ElementTree node: tag, optional text, children).  Tags are written with
the conventional `w:` prefix standing for the namespace-qualified names
the source registers. -/
inductive XmlNode where
  | node (tag : String) (text : Option (List Char)) (children : List XmlNode)

/-- Tag of an element. -/
def xmlTag : XmlNode → String
  | .node t _ _ => t

/-- Text of an element. -/
def xmlText : XmlNode → Option (List Char)
  | .node _ t _ => t

/-- Children of an element. -/
def xmlChildren : XmlNode → List XmlNode
  | .node _ _ c => c

/-- The `w:p` element built for one paragraph (lines 162-166): a paragraph
holding one run holding one text node. -/
def mkParagraphElem (text : List Char) : XmlNode :=
  .node "w:p" none [.node "w:r" none [.node "w:t" (some text) []]]

/-- `_create_basic_docx_xml` (lines 157-167), kept as the element tree the
source serialises (byte serialisation itself is not modelled). -/
def _create_basic_docx_xml (paragraphs : List (List Char)) : XmlNode :=
  .node "w:document" none [.node "w:body" none (paragraphs.map mkParagraphElem)]

/-- One part of the produced container: either a fixed byte string or the
serialised main document tree. -/
inductive DocxPart where
  | fixedBytes (name : String)
  | mainXml (doc : XmlNode)

/-- The paragraph list kept by `text_to_docx_bytes` (lines 171-173):
split on blank-line boundaries, strip, drop empties; a single empty
paragraph when none remain. -/
def keptParagraphs (text : List Char) : List (List Char) :=
  let paragraphs := ((pySplitNlNl text []).map pyStrip).filter (fun p => !p.isEmpty)
  if paragraphs.isEmpty then [[]] else paragraphs

/-- `text_to_docx_bytes` (lines 170-193): the three container parts, keyed
by archive name, in the dictionary order of the source. -/
def text_to_docx_bytes (text : List Char) : List (String × DocxPart) :=
  [("[Content_Types].xml", .fixedBytes "content_types_xml"),
   ("_rels/.rels", .fixedBytes "rels_xml"),
   ("word/document.xml", .mainXml (_create_basic_docx_xml (keptParagraphs text)))]

/-- The `w:p` elements of the main document part: grandchildren of the
document root (children of `w:body`) with tag `w:p`. -/
def docParagraphElems (doc : XmlNode) : List XmlNode :=
  ((xmlChildren doc).flatMap xmlChildren).filter (fun e => xmlTag e = "w:p")

/-- The concatenated run text of a paragraph element. -/
def paragraphElemText (p : XmlNode) : List Char :=
  ((((xmlChildren p).flatMap xmlChildren).filterMap xmlText).flatten)

/-- The main document part of a produced container, when present. -/
def docxMainPart (parts : List (String × DocxPart)) : Option XmlNode :=
  match parts.lookup "word/document.xml" with
  | some (.mainXml doc) => some doc
  | _ => none

/-- A filesystem path as used by the core: directory, final-component stem
and suffix (the suffix includes its leading dot), each a character string. -/
structure FsPath where
  dir : List Char
  stem : List Char
  suffix : List Char
deriving DecidableEq

/-- The digit character of `m < 10` (decimal rendering). -/
def natDigitChar (m : Nat) : Char :=
  Char.ofNat (48 + m)

/-- Worker producing the decimal digits of `n` in front of `acc`,
least-significant digit written first (structural fuel recursion so that
the definition evaluates by `decide`). -/
def natDigitsGo : Nat → Nat → List Char → List Char
  | 0, _, acc => acc
  | fuel + 1, n, acc =>
    if n / 10 = 0 then natDigitChar (n % 10) :: acc
    else natDigitsGo fuel (n / 10) (natDigitChar (n % 10) :: acc)

/-- The decimal rendering of `n`, as written by Python `str(n)` /
f-string interpolation. -/
def natDigits (n : Nat) : List Char :=
  natDigitsGo (n + 1) n []

/-- The candidate path tried at step `k` by `_unique_path` (line 29):
step 0 is the base path itself, step `k ≥ 1` appends a parenthesised
counter to the stem. -/
def pathCandidate (base : FsPath) : Nat → FsPath
  | 0 => base
  | k + 1 => { base with stem := base.stem ++ (' ' :: '(' :: (natDigits (k + 1) ++ [')'])) }

/-- The `while candidate.exists()` loop of `_unique_path` (lines 26-31)
over a finite filesystem `fs`; the fuel `fs.length + 1` is enough for the
loop to reach a candidate outside `fs` (proved below), so the fuelled
recursion has the loop's exact semantics. -/
def uniquePathGo (fs : List FsPath) (base : FsPath) : Nat → Nat → FsPath
  | 0, k => pathCandidate base k
  | fuel + 1, k =>
    if pathCandidate base k ∈ fs then uniquePathGo fs base fuel (k + 1)
    else pathCandidate base k

/-- `_unique_path` (lines 25-31), with the filesystem's existing paths
passed explicitly as `fs`. -/
def _unique_path (fs : List FsPath) (base : FsPath) : FsPath :=
  uniquePathGo fs base (fs.length + 1) 0

/-- The single domain error class `SovereignDocError` (lines 21-22);
constructors record which message the orchestrator raises. -/
inductive SovereignDocError where
  | notFound
  | badInputFormat
  | badOutputFormat
deriving DecidableEq

/-- The accepted source extensions (line 232). -/
def srcExts : List (List Char) :=
  [".docx".toList, ".txt".toList, ".md".toList]

/-- The accepted destination format tokens (line 235). -/
def dstFmts : List (List Char) :=
  ["txt".toList, "md".toList, "html".toList, "docx".toList]

/-- `convert_any` (lines 228-266) up to its pure conversion result: the
filesystem's existing paths are `fs`, reading a text file and extracting
a package's text are the oracle functions `readText` and `extractDocx`
(their I/O is outside the model), and the returned pair is the chosen
output path and the converted character content the source writes there
(for a `docx` destination the written container is
`text_to_docx_bytes` of that content; timing and logging, lines 242 and
267-281, have no effect on the result and are not modelled). -/
def convert_any (fs : List FsPath) (readText extractDocx : FsPath → List Char)
    (input : FsPath) (dst_format : List Char) :
    Except SovereignDocError (FsPath × List Char) :=
  if input ∉ fs then .error .notFound
  else
    let src_ext := pyLower input.suffix
    if src_ext ∉ srcExts then .error .badInputFormat
    else
      let dst := pyLower dst_format
      if dst ∉ dstFmts then .error .badOutputFormat
      else
        let base : FsPath := { input with suffix := [] }
        let raw_out : FsPath := { base with suffix := '.' :: dst }
        let out_path := _unique_path fs raw_out
        let plain := if src_ext = ".docx".toList then extractDocx input else readText input
        let converted :=
          if dst = "txt".toList then plain
          else if dst = "md".toList then
            let c := if src_ext = ".md".toList then plain else txt_to_markdown plain
            if c.getLast? = some '\n' then c else c ++ ['\n']
          else if dst = "html".toList then
            if src_ext = ".md".toList then markdown_to_html plain else text_to_html plain
          else
            if src_ext = ".md".toList then markdown_to_plain_text plain else plain
        .ok (out_path, converted)

instance {ε α : Type} [DecidableEq ε] [DecidableEq α] : DecidableEq (Except ε α) := fun a b =>
  match a, b with
  | .ok x, .ok y =>
    if h : x = y then .isTrue (congrArg Except.ok h)
    else .isFalse (fun he => h (Except.ok.inj he))
  | .error x, .error y =>
    if h : x = y then .isTrue (congrArg Except.error h)
    else .isFalse (fun he => h (Except.error.inj he))
  | .ok _, .error _ => .isFalse (fun he => Except.noConfusion he)
  | .error _, .ok _ => .isFalse (fun he => Except.noConfusion he)

/-- The numeric value of a digit character. -/
def digitVal (c : Char) : Nat :=
  c.toNat - 48

/-- The value read back from a digit string, most significant digit first. -/
def digitsVal (l : List Char) : Nat :=
  l.foldl (fun a c => 10 * a + digitVal c) 0

theorem natDigitsGo_acc (fuel : Nat) :
    ∀ n acc, natDigitsGo fuel n acc = natDigitsGo fuel n [] ++ acc := by
  induction fuel with
  | zero => intro n acc; simp [natDigitsGo]
  | succ fuel ih =>
    intro n acc
    by_cases h : n / 10 = 0
    · simp [natDigitsGo, h]
    · simp only [natDigitsGo, h, if_false, if_neg h]
      rw [ih (n / 10) (natDigitChar (n % 10) :: acc), ih (n / 10) [natDigitChar (n % 10)]]
      simp

theorem digitVal_natDigitChar : ∀ m, m < 10 → digitVal (natDigitChar m) = m := by decide

theorem digitsVal_append_singleton (l : List Char) (c : Char) :
    digitsVal (l ++ [c]) = 10 * digitsVal l + digitVal c := by
  unfold digitsVal
  rw [List.foldl_append]
  rfl

theorem natDigitsGo_val (fuel : Nat) :
    ∀ n, n < 10 ^ fuel → digitsVal (natDigitsGo fuel n []) = n := by
  induction fuel with
  | zero => intro n hn; interval_cases n; rfl
  | succ fuel ih =>
    intro n hn
    by_cases h : n / 10 = 0
    · have hlt : n < 10 := by omega
      simp only [natDigitsGo, h, reduceIte]
      simp [digitsVal, digitVal_natDigitChar (n % 10) (by omega : n % 10 < 10)]
      omega
    · rw [show natDigitsGo (fuel + 1) n [] =
          natDigitsGo fuel (n / 10) [natDigitChar (n % 10)] from by
        simp [natDigitsGo, h]]
      rw [natDigitsGo_acc, digitsVal_append_singleton]
      have hdiv : n / 10 < 10 ^ fuel := by
        have h1 : n < 10 ^ fuel * 10 := by rw [← pow_succ]; exact hn
        omega
      rw [ih (n / 10) hdiv, digitVal_natDigitChar (n % 10) (Nat.mod_lt n (by omega))]
      omega

theorem n_lt_pow10 (n : Nat) : n < 10 ^ (n + 1) := by
  induction n with
  | zero => decide
  | succ k ih =>
    have hx : 0 < 10 ^ (k + 1) := pow_pos (by norm_num) _
    rw [pow_succ]
    omega

theorem natDigits_injective : Function.Injective natDigits := by
  intro a b h
  have ha := natDigitsGo_val (a + 1) a (n_lt_pow10 a)
  have hb := natDigitsGo_val (b + 1) b (n_lt_pow10 b)
  unfold natDigits at h
  rw [h, hb] at ha
  omega

theorem natDigits_ne_nil (n : Nat) : natDigits n ≠ [] := by
  unfold natDigits
  by_cases h : n / 10 = 0
  · simp [natDigitsGo, h]
  · simp only [natDigitsGo, h, if_neg h]
    rw [natDigitsGo_acc]
    simp

theorem pathCandidate_dir (base : FsPath) (k : Nat) :
    (pathCandidate base k).dir = base.dir := by
  cases k <;> rfl

theorem pathCandidate_suffix (base : FsPath) (k : Nat) :
    (pathCandidate base k).suffix = base.suffix := by
  cases k <;> rfl

theorem pathCandidate_injective (base : FsPath) :
    Function.Injective (pathCandidate base) := by
  intro j k h
  match j, k with
  | 0, 0 => rfl
  | 0, k + 1 =>
    exfalso
    have hs := congrArg FsPath.stem h
    have hl := congrArg List.length hs
    simp [pathCandidate] at hl
  | j + 1, 0 =>
    exfalso
    have hs := congrArg FsPath.stem h
    have hl := congrArg List.length hs
    simp [pathCandidate] at hl
  | j + 1, k + 1 =>
    have hs := congrArg FsPath.stem h
    simp only [pathCandidate] at hs
    have h2 := List.append_cancel_left hs
    simp only [List.cons.injEq, true_and] at h2
    have h3 := List.append_cancel_right h2
    have := natDigits_injective h3
    omega

theorem exists_candidate_not_mem (fs : List FsPath) (base : FsPath) :
    ∃ j, j ≤ fs.length ∧ pathCandidate base j ∉ fs := by
  by_contra hc
  push_neg at hc
  have hsub : (Finset.range (fs.length + 1)).image (pathCandidate base) ⊆ fs.toFinset := by
    intro p hp
    simp only [Finset.mem_image, Finset.mem_range] at hp
    obtain ⟨j, hj, rfl⟩ := hp
    exact List.mem_toFinset.mpr (hc j (Nat.lt_succ_iff.mp hj))
  have hcard := Finset.card_le_card hsub
  rw [Finset.card_image_of_injective _ (pathCandidate_injective base),
    Finset.card_range] at hcard
  have := List.toFinset_card_le fs
  omega

theorem uniquePathGo_not_mem (fs : List FsPath) (base : FsPath) :
    ∀ fuel k, (∃ j, k ≤ j ∧ j ≤ k + fuel ∧ pathCandidate base j ∉ fs) →
      uniquePathGo fs base fuel k ∉ fs := by
  intro fuel
  induction fuel with
  | zero =>
    intro k ⟨j, hkj, hjk, hnot⟩
    have : j = k := by omega
    subst this
    exact hnot
  | succ fuel ih =>
    intro k ⟨j, hkj, hjk, hnot⟩
    by_cases hc : pathCandidate base k ∈ fs
    · simp only [uniquePathGo, if_pos hc]
      apply ih (k + 1)
      have hne : j ≠ k := fun he => hnot (he ▸ hc)
      exact ⟨j, by omega, by omega, hnot⟩
    · simp only [uniquePathGo, if_neg hc]
      exact hc

theorem uniquePathGo_shape (fs : List FsPath) (base : FsPath) :
    ∀ fuel k, ∃ j, uniquePathGo fs base fuel k = pathCandidate base j := by
  intro fuel
  induction fuel with
  | zero => intro k; exact ⟨k, rfl⟩
  | succ fuel ih =>
    intro k
    by_cases hc : pathCandidate base k ∈ fs
    · simpa only [uniquePathGo, if_pos hc] using ih (k + 1)
    · exact ⟨k, by simp only [uniquePathGo, if_neg hc]⟩

theorem uniquePath_not_mem (fs : List FsPath) (base : FsPath) :
    _unique_path fs base ∉ fs := by
  obtain ⟨j, hj, hnot⟩ := exists_candidate_not_mem fs base
  exact uniquePathGo_not_mem fs base (fs.length + 1) 0 ⟨j, by omega, by omega, hnot⟩

theorem uniquePath_shape (fs : List FsPath) (base : FsPath) :
    ∃ j, _unique_path fs base = pathCandidate base j :=
  uniquePathGo_shape fs base (fs.length + 1) 0

theorem uniquePath_of_not_mem (fs : List FsPath) (base : FsPath) (h : base ∉ fs) :
    _unique_path fs base = base := by
  have h0 : pathCandidate base 0 = base := rfl
  simp only [_unique_path, uniquePathGo, h0, if_neg h]

/-- C2: `convert_any` derives the output path by replacing the input's
extension with the destination extension (same base name and directory);
when that path exists it appends a parenthesised counter to the base name
until a non-existing path is found, so an existing file is never
overwritten, and when the derived path does not exist it is used as-is. -/
theorem claim_C2_output_path (fs : List FsPath) (rd ex : FsPath → List Char)
    (input : FsPath) (dst : List Char) (hin : input ∈ fs)
    (hsrc : pyLower input.suffix ∈ srcExts) (hdst : pyLower dst ∈ dstFmts) :
    ∃ out conv, convert_any fs rd ex input dst = .ok (out, conv) ∧
      out.dir = input.dir ∧ out.suffix = '.' :: pyLower dst ∧
      (out.stem = input.stem ∨
        ∃ k, out.stem = input.stem ++ (' ' :: '(' :: (natDigits (k + 1) ++ [')']))) ∧
      out ∉ fs ∧
      ((⟨input.dir, input.stem, '.' :: pyLower dst⟩ : FsPath) ∉ fs →
        out = ⟨input.dir, input.stem, '.' :: pyLower dst⟩) := by
  obtain ⟨d, st, sf⟩ := input
  simp only [convert_any, if_neg (not_not_intro hin), if_neg (not_not_intro hsrc),
    if_neg (not_not_intro hdst)]
  obtain ⟨j, hj⟩ := uniquePath_shape fs ⟨d, st, '.' :: pyLower dst⟩
  refine ⟨_, _, rfl, ?_, ?_, ?_, ?_, ?_⟩
  · rw [hj, pathCandidate_dir]
  · rw [hj, pathCandidate_suffix]
  · rw [hj]
    cases j with
    | zero => exact Or.inl rfl
    | succ k => exact Or.inr ⟨k, rfl⟩
  · exact uniquePath_not_mem fs _
  · intro hnm
    exact uniquePath_of_not_mem fs _ hnm

/-- Fixture for the C2 witness: directory holding `input.txt` and
`input.html`. -/
def fsC2 : List FsPath :=
  [⟨[], "input".toList, ".txt".toList⟩, ⟨[], "input".toList, ".html".toList⟩]

/-- Fixture for the C2 witness: the path `input.txt`. -/
def inC2 : FsPath := ⟨[], "input".toList, ".txt".toList⟩

theorem claim_C2_output_path_witness :
    (inC2 ∈ fsC2 ∧ pyLower inC2.suffix ∈ srcExts ∧ pyLower ("html".toList) ∈ dstFmts) ∧
    (∃ out conv,
        convert_any fsC2 (fun _ => []) (fun _ => []) inC2 ("html".toList) = .ok (out, conv) ∧
        out.dir = inC2.dir ∧ out.suffix = '.' :: pyLower ("html".toList) ∧
        (out.stem = inC2.stem ∨
          ∃ k, out.stem = inC2.stem ++ (' ' :: '(' :: (natDigits (k + 1) ++ [')']))) ∧
        out ∉ fsC2 ∧
        ((⟨inC2.dir, inC2.stem, '.' :: pyLower ("html".toList)⟩ : FsPath) ∉ fsC2 →
          out = ⟨inC2.dir, inC2.stem, '.' :: pyLower ("html".toList)⟩)) ∧
    convert_any fsC2 (fun _ => []) (fun _ => []) inC2 ("html".toList) =
      .ok (⟨[], "input (1)".toList, ".html".toList⟩,
        "<!DOCTYPE html>\n<html>\n<body>\n</body>\n</html>\n".toList) :=
  ⟨by decide,
   claim_C2_output_path fsC2 (fun _ => []) (fun _ => []) inC2 ("html".toList)
     (by decide) (by decide) (by decide),
   by decide⟩

/-- C6: `convert_any` validates in order — missing input file first
(`notFound`), then unsupported source extension (`badInputFormat`), then
unsupported destination token (`badOutputFormat`) — raising the single
domain error kind `SovereignDocError` at the first failure, and raises
none of these errors when all three checks pass. -/
theorem claim_C6_validation_order (fs : List FsPath) (rd ex : FsPath → List Char)
    (input : FsPath) (dst : List Char) :
    (input ∉ fs → convert_any fs rd ex input dst = .error .notFound) ∧
    (input ∈ fs → pyLower input.suffix ∉ srcExts →
      convert_any fs rd ex input dst = .error .badInputFormat) ∧
    (input ∈ fs → pyLower input.suffix ∈ srcExts → pyLower dst ∉ dstFmts →
      convert_any fs rd ex input dst = .error .badOutputFormat) ∧
    (input ∈ fs → pyLower input.suffix ∈ srcExts → pyLower dst ∈ dstFmts →
      ∃ out conv, convert_any fs rd ex input dst = .ok (out, conv)) := by
  refine ⟨?_, ?_, ?_, ?_⟩
  · intro h
    simp only [convert_any, if_pos h]
  · intro h1 h2
    simp only [convert_any, if_neg (not_not_intro h1), if_pos h2]
  · intro h1 h2 h3
    simp only [convert_any, if_neg (not_not_intro h1), if_neg (not_not_intro h2), if_pos h3]
  · intro h1 h2 h3
    simp only [convert_any, if_neg (not_not_intro h1), if_neg (not_not_intro h2),
      if_neg (not_not_intro h3)]
    exact ⟨_, _, rfl⟩

/-- Fixture for the C6 witness: directory holding `a.txt` and `b.pdf`. -/
def fsC6 : List FsPath :=
  [⟨[], "a".toList, ".txt".toList⟩, ⟨[], "b".toList, ".pdf".toList⟩]

theorem claim_C6_validation_order_witness :
    ((⟨[], "c".toList, ".txt".toList⟩ : FsPath) ∉ fsC6 ∧
      convert_any fsC6 (fun _ => []) (fun _ => []) ⟨[], "c".toList, ".txt".toList⟩
        ("md".toList) = .error .notFound) ∧
    ((⟨[], "b".toList, ".pdf".toList⟩ : FsPath) ∈ fsC6 ∧
      pyLower (".pdf".toList) ∉ srcExts ∧
      convert_any fsC6 (fun _ => []) (fun _ => []) ⟨[], "b".toList, ".pdf".toList⟩
        ("md".toList) = .error .badInputFormat) ∧
    ((⟨[], "a".toList, ".txt".toList⟩ : FsPath) ∈ fsC6 ∧
      pyLower (".txt".toList) ∈ srcExts ∧ pyLower ("pdf".toList) ∉ dstFmts ∧
      convert_any fsC6 (fun _ => []) (fun _ => []) ⟨[], "a".toList, ".txt".toList⟩
        ("pdf".toList) = .error .badOutputFormat) ∧
    (pyLower ("md".toList) ∈ dstFmts ∧
      ∃ out conv, convert_any fsC6 (fun _ => []) (fun _ => []) ⟨[], "a".toList, ".txt".toList⟩
        ("md".toList) = .ok (out, conv)) :=
  ⟨⟨by decide,
    (claim_C6_validation_order fsC6 (fun _ => []) (fun _ => []) ⟨[], "c".toList, ".txt".toList⟩
      ("md".toList)).1 (by decide)⟩,
   ⟨by decide, by decide,
    (claim_C6_validation_order fsC6 (fun _ => []) (fun _ => []) ⟨[], "b".toList, ".pdf".toList⟩
      ("md".toList)).2.1 (by decide) (by decide)⟩,
   ⟨by decide, by decide, by decide,
    (claim_C6_validation_order fsC6 (fun _ => []) (fun _ => []) ⟨[], "a".toList, ".txt".toList⟩
      ("pdf".toList)).2.2.1 (by decide) (by decide) (by decide)⟩,
   by decide,
   (claim_C6_validation_order fsC6 (fun _ => []) (fun _ => []) ⟨[], "a".toList, ".txt".toList⟩
      ("md".toList)).2.2.2 (by decide) (by decide) (by decide)⟩

/-- C9: source-extension matching is case-insensitive — the extension is
lowercased before validation (line 231), so an input whose extension
differs from an accepted one only in letter case is accepted and
dispatched exactly as the lowercase-extension input would be (given that
both paths exist and carry the same content). -/
theorem claim_C9_case_insensitive_ext (fs : List FsPath) (rd ex : FsPath → List Char)
    (input : FsPath) (dst ext : List Char)
    (hext : pyLower input.suffix = ext) (hlow : pyLower ext = ext)
    (h1 : input ∈ fs) (h2 : ({ input with suffix := ext } : FsPath) ∈ fs)
    (hrd : rd input = rd { input with suffix := ext })
    (hex : ex input = ex { input with suffix := ext }) :
    convert_any fs rd ex input dst = convert_any fs rd ex { input with suffix := ext } dst ∧
    (ext ∈ srcExts → pyLower dst ∈ dstFmts →
      ∃ out conv, convert_any fs rd ex input dst = .ok (out, conv)) := by
  obtain ⟨d, st, sf⟩ := input
  simp only at hext hlow hrd hex h2
  constructor
  · simp only [convert_any, if_neg (not_not_intro h1), if_neg (not_not_intro h2),
      hext, hlow, hrd, hex]
  · intro hsrc hdst
    simp only [convert_any, if_neg (not_not_intro h1), hext,
      if_neg (not_not_intro hsrc), if_neg (not_not_intro hdst)]
    exact ⟨_, _, rfl⟩

/-- Fixture for the C9 witness: directory holding `a.TXT` and `a.txt`. -/
def fsC9 : List FsPath :=
  [⟨[], "a".toList, ".TXT".toList⟩, ⟨[], "a".toList, ".txt".toList⟩]

theorem claim_C9_case_insensitive_ext_witness :
    (pyLower (".TXT".toList) = ".txt".toList ∧ pyLower (".txt".toList) = ".txt".toList ∧
      (⟨[], "a".toList, ".TXT".toList⟩ : FsPath) ∈ fsC9 ∧
      (⟨[], "a".toList, ".txt".toList⟩ : FsPath) ∈ fsC9) ∧
    (convert_any fsC9 (fun _ => "Hi".toList) (fun _ => []) ⟨[], "a".toList, ".TXT".toList⟩
        ("md".toList) =
      convert_any fsC9 (fun _ => "Hi".toList) (fun _ => []) ⟨[], "a".toList, ".txt".toList⟩
        ("md".toList) ∧
      (".txt".toList ∈ srcExts → pyLower ("md".toList) ∈ dstFmts →
        ∃ out conv, convert_any fsC9 (fun _ => "Hi".toList) (fun _ => [])
          ⟨[], "a".toList, ".TXT".toList⟩ ("md".toList) = .ok (out, conv))) :=
  ⟨by decide,
   claim_C9_case_insensitive_ext fsC9 (fun _ => "Hi".toList) (fun _ => [])
     ⟨[], "a".toList, ".TXT".toList⟩ ("md".toList) (".txt".toList)
     (by decide) (by decide) (by decide) (by decide) rfl rfl⟩

/-- C3: `txt_to_markdown` on the exact input
`"Hello World\n\n• item one\n• item two\n"` returns exactly
`"# Hello World\n\n- item one\n- item two\n"`. -/
theorem claim_C3_roundtrip_scenario :
    txt_to_markdown ("Hello World\n\n• item one\n• item two\n".toList) =
      "# Hello World\n\n- item one\n- item two\n".toList := by
  decide

/-- Count of the emitted lines equal to a given tag. -/
def countTag (t : List Char) : List (List Char) → Nat
  | [] => 0
  | l :: ls => (if l = t then 1 else 0) + countTag t ls

theorem countTag_append (t : List Char) (a b : List (List Char)) :
    countTag t (a ++ b) = countTag t a + countTag t b := by
  induction a with
  | nil => simp [countTag]
  | cons x xs ih => simp [countTag, ih]; omega

/-- The list-balance invariant of the `markdown_to_html` state: the number
of emitted `<ul>` lines exceeds the number of emitted `</ul>` lines by one
exactly when the state is inside a list. -/
def ulBalanced (st : List (List Char) × Bool) : Prop :=
  countTag ("<ul>".toList) st.1 = countTag ("</ul>".toList) st.1 + (if st.2 then 1 else 0)

theorem countTag_singleton_ne (t l : List Char) (h : l ≠ t) : countTag t [l] = 0 := by
  simp [countTag, h]

theorem cons2_ne (a b : Char) (x : List Char) (c d : Char) (y : List Char)
    (h : b ≠ d) : a :: b :: x ≠ c :: d :: y := by
  intro he
  injection he with h1 h2
  injection h2 with h3 _
  exact h h3

theorem close_list_balance (html : List (List Char)) (in_list : Bool)
    (h : ulBalanced (html, in_list)) :
    countTag ("<ul>".toList) (close_list html in_list) =
      countTag ("</ul>".toList) (close_list html in_list) := by
  unfold ulBalanced at h
  simp only at h
  cases in_list with
  | false =>
    have h1 : close_list html false = html := by simp [close_list]
    rw [h1]
    simpa using h
  | true =>
    have h1 : close_list html true = html ++ ["</ul>".toList] := by simp [close_list]
    rw [h1, countTag_append, countTag_append]
    have e1 : countTag ("<ul>".toList) ["</ul>".toList] = 0 := by decide
    have e2 : countTag ("</ul>".toList) ["</ul>".toList] = 1 := by decide
    rw [e1, e2]
    have h2 : countTag ("<ul>".toList) html = countTag ("</ul>".toList) html + 1 := by
      simpa using h
    omega

theorem tagLine_ne_ul (c : Char) (x : List Char) (h : c ≠ 'u') :
    ('<' :: c :: x) ≠ "<ul>".toList :=
  cons2_ne '<' c x '<' 'u' ('l' :: '>' :: []) h

theorem tagLine_ne_closeul (c : Char) (x : List Char) (h : c ≠ '/') :
    ('<' :: c :: x) ≠ "</ul>".toList :=
  cons2_ne '<' c x '<' '/' ('u' :: 'l' :: '>' :: []) h

theorem ulBalanced_close (html : List (List Char)) (inl : Bool)
    (h : ulBalanced (html, inl)) : ulBalanced (close_list html inl, false) := by
  unfold ulBalanced
  simp only [if_neg Bool.false_ne_true]
  rw [Nat.add_zero]
  exact close_list_balance html inl h

theorem ulBalanced_close_append (html : List (List Char)) (inl : Bool) (L : List Char)
    (h : ulBalanced (html, inl))
    (hL1 : countTag ("<ul>".toList) [L] = 0) (hL2 : countTag ("</ul>".toList) [L] = 0) :
    ulBalanced (close_list html inl ++ [L], false) := by
  unfold ulBalanced
  simp only [if_neg Bool.false_ne_true]
  rw [countTag_append, countTag_append, hL1, hL2]
  have hc := close_list_balance html inl h
  omega

theorem ulBalanced_li (html : List (List Char)) (inl : Bool) (L : List Char)
    (h : ulBalanced (html, inl))
    (hL1 : countTag ("<ul>".toList) [L] = 0) (hL2 : countTag ("</ul>".toList) [L] = 0) :
    ulBalanced ((if inl then html else html ++ ["<ul>".toList]) ++ [L], true) := by
  cases inl with
  | true =>
    have h2 : countTag ("<ul>".toList) html = countTag ("</ul>".toList) html + 1 := h
    show countTag ("<ul>".toList) (html ++ [L]) = countTag ("</ul>".toList) (html ++ [L]) + 1
    rw [countTag_append, countTag_append, hL1, hL2]
    omega
  | false =>
    have h2 : countTag ("<ul>".toList) html = countTag ("</ul>".toList) html + 0 := h
    show countTag ("<ul>".toList) ((html ++ ["<ul>".toList]) ++ [L]) =
      countTag ("</ul>".toList) ((html ++ ["<ul>".toList]) ++ [L]) + 1
    rw [countTag_append, countTag_append, countTag_append, countTag_append, hL1, hL2]
    have e1 : countTag ("<ul>".toList) ["<ul>".toList] = 1 := by decide
    have e2 : countTag ("</ul>".toList) ["<ul>".toList] = 0 := by decide
    rw [e1, e2]
    omega

theorem mdHtmlEmit_balance (st : List (List Char) × Bool) (stripped : List Char)
    (h : ulBalanced st) : ulBalanced (mdHtmlEmit st stripped) := by
  obtain ⟨html, inl⟩ := st
  unfold mdHtmlEmit
  by_cases h1 : stripped.isEmpty = true
  · rw [if_pos h1]
    exact ulBalanced_close html inl h
  rw [if_neg h1]
  by_cases h2 : pyStartsWith ("### ".toList) stripped = true
  · rw [if_pos h2]
    exact ulBalanced_close_append html inl _ h
      (countTag_singleton_ne _ _ (tagLine_ne_ul 'h' _ (by decide)))
      (countTag_singleton_ne _ _ (tagLine_ne_closeul 'h' _ (by decide)))
  rw [if_neg h2]
  by_cases h3 : pyStartsWith ("## ".toList) stripped = true
  · rw [if_pos h3]
    exact ulBalanced_close_append html inl _ h
      (countTag_singleton_ne _ _ (tagLine_ne_ul 'h' _ (by decide)))
      (countTag_singleton_ne _ _ (tagLine_ne_closeul 'h' _ (by decide)))
  rw [if_neg h3]
  by_cases h4 : pyStartsWith ("# ".toList) stripped = true
  · rw [if_pos h4]
    exact ulBalanced_close_append html inl _ h
      (countTag_singleton_ne _ _ (tagLine_ne_ul 'h' _ (by decide)))
      (countTag_singleton_ne _ _ (tagLine_ne_closeul 'h' _ (by decide)))
  rw [if_neg h4]
  by_cases h5 : (pyStartsWith ("- ".toList) stripped || pyStartsWith ("* ".toList) stripped
      || pyStartsWith ("+ ".toList) stripped) = true
  · rw [if_pos h5]
    exact ulBalanced_li html inl _ h
      (countTag_singleton_ne _ _ (tagLine_ne_ul 'l' _ (by decide)))
      (countTag_singleton_ne _ _ (tagLine_ne_closeul 'l' _ (by decide)))
  · rw [if_neg h5]
    exact ulBalanced_close_append html inl _ h
      (countTag_singleton_ne _ _ (tagLine_ne_ul 'p' _ (by decide)))
      (countTag_singleton_ne _ _ (tagLine_ne_closeul 'p' _ (by decide)))

theorem foldl_mdHtmlStep_balance (lines : List (List Char)) :
    ∀ st, ulBalanced st → ulBalanced (lines.foldl mdHtmlStep st) := by
  induction lines with
  | nil => intro st h; exact h
  | cons l ls ih =>
    intro st h
    exact ih _ (mdHtmlEmit_balance st (pyStrip l) h)

theorem mdHtmlFold_balance (md : List Char) : ulBalanced (mdHtmlFold md) := by
  unfold mdHtmlFold
  refine foldl_mdHtmlStep_balance (pySplitlines md) ([], false) ?_
  unfold ulBalanced
  simp [countTag]

/-- C4: for every markdown input, the body emitted by `markdown_to_html`
contains equally many list-open `<ul>` lines and list-close `</ul>` lines,
and the whole output places that fully closed body before the closing
`</body>` tag. -/
theorem claim_C4_ul_balance (md : List Char) :
    countTag ("<ul>".toList) (mdHtmlBody md) = countTag ("</ul>".toList) (mdHtmlBody md) ∧
    markdown_to_html md = "<!DOCTYPE html>\n<html>\n<body>\n".toList
      ++ joinNl (mdHtmlBody md) ++ "\n</body>\n</html>\n".toList := by
  refine ⟨?_, rfl⟩
  unfold mdHtmlBody
  exact close_list_balance (mdHtmlFold md).1 (mdHtmlFold md).2 (mdHtmlFold_balance md)

theorem pyLstrip_ws_append (w l : List Char) (hw : ∀ c ∈ w, pyIsSpace c = true) :
    pyLstrip (w ++ l) = pyLstrip l := by
  induction w with
  | nil => rfl
  | cons c w ih =>
    have hc : pyIsSpace c = true := hw c (List.mem_cons_self c w)
    have hw2 : ∀ x ∈ w, pyIsSpace x = true := fun x hx => hw x (List.mem_cons_of_mem c hx)
    unfold pyLstrip at *
    rw [List.cons_append, List.dropWhile_cons, hc]
    simpa using ih hw2

theorem pyStrip_ws_append (w l : List Char) (hw : ∀ c ∈ w, pyIsSpace c = true) :
    pyStrip (w ++ l) = pyStrip l := by
  unfold pyStrip
  rw [pyLstrip_ws_append w l hw]

/-- C10: `markdown_to_html` classifies each line after stripping its
surrounding whitespace, so prepending whitespace to a line never changes
the effect of the loop iteration on the state — in particular an indented
heading or list-item line is emitted exactly as its unindented form, never
as a paragraph. -/
theorem claim_C10_indent_invariant (st : List (List Char) × Bool) (w line : List Char)
    (hw : ∀ c ∈ w, pyIsSpace c = true) :
    mdHtmlStep st (w ++ line) = mdHtmlStep st line := by
  unfold mdHtmlStep
  rw [pyStrip_ws_append w line hw]

theorem claim_C10_indent_invariant_witness :
    (∀ c ∈ ("  ".toList), pyIsSpace c = true) ∧
    mdHtmlStep ([], false) ("  ".toList ++ "# Title".toList) =
      mdHtmlStep ([], false) ("# Title".toList) :=
  ⟨by decide, claim_C10_indent_invariant ([], false) ("  ".toList) ("# Title".toList) (by decide)⟩

/-- C5 counterexample: `"  hello"` is neither a heading, a bullet nor an
ordered-list line, yet `markdown_to_plain_text` does not keep it as-is —
the loop left-strips it (line 200), so the claim that the exact line with
its leading whitespace is preserved in the default case is false. -/
theorem claim_C5_counterexample :
    (pyStartsWith ("#".toList) (pyLstrip ("  hello".toList)) = false ∧
      (pyStartsWith ("- ".toList) (pyLstrip ("  hello".toList)) ||
        pyStartsWith ("* ".toList) (pyLstrip ("  hello".toList)) ||
        pyStartsWith ("+ ".toList) (pyLstrip ("  hello".toList))) = false ∧
      mdOrderedSplit (pyLstrip ("  hello".toList)) = none) ∧
    mdPlainLine ("  hello".toList) ≠ "  hello".toList ∧
    mdPlainLine ("  hello".toList) = "hello".toList ∧
    markdown_to_plain_text ("x\n  hello".toList) = "x\nhello\n".toList := by
  refine ⟨by decide, by decide, by decide, by decide⟩

/-- C5 (amended): `markdown_to_plain_text` left-strips every line first;
a line that is not a heading line, not a bullet line and not an
ordered-list line is kept as its left-stripped form — trailing whitespace
and inner structure intact, but leading whitespace removed. -/
theorem claim_C5_default_line (line : List Char)
    (h1 : pyStartsWith ("#".toList) (pyLstrip line) = false)
    (h2 : (pyStartsWith ("- ".toList) (pyLstrip line) ||
      pyStartsWith ("* ".toList) (pyLstrip line) ||
      pyStartsWith ("+ ".toList) (pyLstrip line)) = false)
    (h3 : mdOrderedSplit (pyLstrip line) = none) :
    mdPlainLine line = pyLstrip line := by
  unfold mdPlainLine
  rw [if_neg (by rw [(h1 : pyStartsWith ['#'] (pyLstrip line) = false)]; decide),
    if_neg (by
      rw [(h2 : (pyStartsWith ['-', ' '] (pyLstrip line) ||
        pyStartsWith ['*', ' '] (pyLstrip line) ||
        pyStartsWith ['+', ' '] (pyLstrip line)) = false)]
      decide),
    h3]

theorem claim_C5_default_line_witness :
    (pyStartsWith ("#".toList) (pyLstrip ("  hi there  ".toList)) = false ∧
      (pyStartsWith ("- ".toList) (pyLstrip ("  hi there  ".toList)) ||
        pyStartsWith ("* ".toList) (pyLstrip ("  hi there  ".toList)) ||
        pyStartsWith ("+ ".toList) (pyLstrip ("  hi there  ".toList))) = false ∧
      mdOrderedSplit (pyLstrip ("  hi there  ".toList)) = none) ∧
    mdPlainLine ("  hi there  ".toList) = pyLstrip ("  hi there  ".toList) :=
  ⟨by decide,
   claim_C5_default_line ("  hi there  ".toList) (by decide) (by decide) (by decide)⟩

/-- C1 counterexample: for the empty output string in destination format
`html` (and likewise `docx`), `_compute_omega_score` is `3/250 = 0.012`,
not `0.0` — the code counts `blank-line boundaries + 1` paragraphs, which
is `1` even for empty output. -/
theorem claim_C1_counterexample :
    _compute_omega_score [] "html" = 3 / 250 ∧ (3 / 250 : ℚ) ≠ 0 := by
  constructor
  · simp only [_compute_omega_score, String.reduceEq, reduceIte, or_self, or_false, false_or]
    norm_num [countNlNl, min_def, max_def]
  · norm_num

/-- C1 (amended): `_compute_omega_score` is a pure function (hence
deterministic) and bounded — `0 ≤ score ≤ 1` for every output string and
destination format; for the empty output string the score is `0.0` for
destinations `txt` and `md`, but `3/250 = 0.012` for `html` and `docx`. -/
theorem claim_C1_score_bounded :
    (∀ (converted : List Char) (dst_fmt : String),
      0 ≤ _compute_omega_score converted dst_fmt ∧
        _compute_omega_score converted dst_fmt ≤ 1) ∧
    _compute_omega_score [] "txt" = 0 ∧ _compute_omega_score [] "md" = 0 ∧
    _compute_omega_score [] "html" = 3 / 250 ∧ _compute_omega_score [] "docx" = 3 / 250 := by
  refine ⟨fun converted dst_fmt => ?_, ?_, ?_, ?_, ?_⟩
  · unfold _compute_omega_score
    constructor
    · exact le_max_left 0 _
    · exact max_le (by norm_num) (min_le_right _ _)
  · simp only [_compute_omega_score, String.reduceEq, reduceIte, or_self]
    norm_num [min_def, max_def]
  · simp only [_compute_omega_score, String.reduceEq, reduceIte]
    norm_num [pySplitlines, pySplitlinesAux, min_def, max_def]
  · simp only [_compute_omega_score, String.reduceEq, reduceIte, or_self, or_false, false_or]
    norm_num [countNlNl, min_def, max_def]
  · simp only [_compute_omega_score, String.reduceEq, reduceIte, or_self, or_false, false_or]
    norm_num [countNlNl, min_def, max_def]

/-- The C8 claim's literal scoring formula for destination `md`, written
from the claim's words: markers are the lines *starting with* `'#'` plus
the lines *starting with* `"- "`, `"* "` or `"1. "` (no left-stripping),
`structureScore = min(markers / 50, 1)`,
`lengthScore = min(chars / 10000, 1)`, and the score is
`clamp(0.4 * lengthScore + 0.6 * structureScore, 0, 1)`. -/
def omegaScoreMdClaim (converted : List Char) : ℚ :=
  let lengthScore : ℚ := min ((converted.length : ℚ) / 10000) 1
  let lines := pySplitlines converted
  let markers := (lines.filter (fun ln => pyStartsWith ("#".toList) ln)).length
    + (lines.filter (fun ln => pyStartsWith ("- ".toList) ln || pyStartsWith ("* ".toList) ln
        || pyStartsWith ("1. ".toList) ln)).length
  let structureScore : ℚ := min ((markers : ℚ) / 50) 1
  max 0 (min ((2 / 5) * lengthScore + (3 / 5) * structureScore) 1)

/-- The C8 formula amended as the code computes it: each line is
left-stripped before the marker prefixes are tested. -/
def omegaScoreMdAmended (converted : List Char) : ℚ :=
  let lengthScore : ℚ := min ((converted.length : ℚ) / 10000) 1
  let lines := pySplitlines converted
  let markers := (lines.filter (fun ln => pyStartsWith ("#".toList) (pyLstrip ln))).length
    + (lines.filter (fun ln => pyStartsWith ("- ".toList) (pyLstrip ln)
        || pyStartsWith ("* ".toList) (pyLstrip ln)
        || pyStartsWith ("1. ".toList) (pyLstrip ln))).length
  let structureScore : ℚ := min ((markers : ℚ) / 50) 1
  max 0 (min ((2 / 5) * lengthScore + (3 / 5) * structureScore) 1)

/-- C8 counterexample: on the output `" #"` (one line whose `'#'` sits
after a space) the code's score differs from the claim's formula — the
code left-strips the line before testing the `'#'` prefix and scores
`151/12500`, the claim's literal formula scores `1/12500`. -/
theorem claim_C8_counterexample :
    _compute_omega_score (" #".toList) "md" = 151 / 12500 ∧
    omegaScoreMdClaim (" #".toList) = 1 / 12500 ∧
    _compute_omega_score (" #".toList) "md" ≠ omegaScoreMdClaim (" #".toList) := by
  have hn : ((pySplitlines (" #".toList)).countP
        (fun ln => pyStartsWith ("#".toList) (pyLstrip ln))
      + (pySplitlines (" #".toList)).countP (fun ln =>
        pyStartsWith ("- ".toList) (pyLstrip ln) || pyStartsWith ("* ".toList) (pyLstrip ln)
          || pyStartsWith ("1. ".toList) (pyLstrip ln))) = 1 := by decide
  have h1 : _compute_omega_score (" #".toList) "md" = 151 / 12500 := by
    simp only [_compute_omega_score, String.reduceEq, reduceIte, hn]
    norm_num [min_def, max_def]
  have hm : ((pySplitlines (" #".toList)).filter
        (fun ln => pyStartsWith ("#".toList) ln)).length
      + ((pySplitlines (" #".toList)).filter (fun ln =>
        pyStartsWith ("- ".toList) ln || pyStartsWith ("* ".toList) ln
          || pyStartsWith ("1. ".toList) ln)).length = 0 := by decide
  have h2 : omegaScoreMdClaim (" #".toList) = 1 / 12500 := by
    simp only [omegaScoreMdClaim, hm]
    norm_num [min_def, max_def]
  refine ⟨h1, h2, ?_⟩
  rw [h1, h2]
  norm_num

/-- C8 (amended): for destination `md`, `_compute_omega_score` counts as
markers exactly the lines whose left-stripped form starts with `'#'` plus
the lines whose left-stripped form starts with `"- "`, `"* "` or `"1. "`,
takes `structureScore = min(markers / 50, 1)` and
`lengthScore = min(chars / 10000, 1)`, and returns
`clamp(0.4 * lengthScore + 0.6 * structureScore, 0, 1)`. -/
theorem claim_C8_md_formula (converted : List Char) :
    _compute_omega_score converted "md" = omegaScoreMdAmended converted := by
  simp only [_compute_omega_score, omegaScoreMdAmended, String.reduceEq, reduceIte,
    List.countP_eq_length_filter]

theorem xml_filter_map_mkParagraphElem (ps : List (List Char)) :
    (ps.map mkParagraphElem).filter (fun e => xmlTag e = "w:p") = ps.map mkParagraphElem := by
  induction ps with
  | nil => rfl
  | cons p ps ih =>
    simp only [List.map_cons, List.filter_cons]
    rw [if_pos (by simp [mkParagraphElem, xmlTag])]
    rw [ih]

theorem paragraphElemText_mkParagraphElem (t : List Char) :
    paragraphElemText (mkParagraphElem t) = t := by
  simp [paragraphElemText, mkParagraphElem, xmlChildren, xmlText]

theorem docParagraphElems_create (ps : List (List Char)) :
    (docParagraphElems (_create_basic_docx_xml ps)).map paragraphElemText = ps := by
  unfold docParagraphElems _create_basic_docx_xml
  simp only [xmlChildren, List.flatMap_cons, List.flatMap_nil, List.append_nil]
  rw [xml_filter_map_mkParagraphElem]
  rw [List.map_map]
  have : (paragraphElemText ∘ mkParagraphElem) = id := by
    funext t
    exact paragraphElemText_mkParagraphElem t
  rw [this, List.map_id]

theorem keptParagraphs_ne_nil (text : List Char) : keptParagraphs text ≠ [] := by
  unfold keptParagraphs
  by_cases h : (((pySplitNlNl text []).map pyStrip).filter (fun p => !p.isEmpty)).isEmpty
  · rw [if_pos h]
    simp
  · rw [if_neg h]
    intro hc
    rw [hc] at h
    exact h rfl

/-- C7: `text_to_docx_bytes` splits on blank-line boundaries, trims and
drops empty paragraphs (substituting one empty paragraph when none are
left, so the kept list is never empty), always produces exactly the three
container parts in order, and its main part holds one `w:p` element per
kept paragraph in input order — in particular the source
`"Title\n\nBody text"` yields exactly the two paragraphs in that order. -/
theorem claim_C7_container_structure (text : List Char) :
    (text_to_docx_bytes text).map Prod.fst =
      ["[Content_Types].xml", "_rels/.rels", "word/document.xml"] ∧
    keptParagraphs text ≠ [] ∧
    (∃ main, docxMainPart (text_to_docx_bytes text) = some main ∧
      (docParagraphElems main).map paragraphElemText = keptParagraphs text) ∧
    keptParagraphs ("Title\n\nBody text".toList) = ["Title".toList, "Body text".toList] := by
  refine ⟨rfl, keptParagraphs_ne_nil text, ⟨_, ?_, docParagraphElems_create _⟩, by decide⟩
  rfl
